import Mathlib

/-!
Verification of the pre-grading pipeline (`main.py`) against its specification.

The development shallowly embeds the pipeline's pure logic and its effectful
steps.  Python strings are Lean `String`s (character-level operations such as
`str.lower`, `str.strip`, `str.startswith` are modelled on `String.data`; the
models are ASCII-faithful).  Fallible Python operations (library calls that can
raise) are modelled with `Except PyErr` or `Option`; external capabilities
(PyMuPDF document opening, OCR, the analysis agent, `shutil` copies) are fields
of explicit capability records, since the spec treats them as black boxes that
return text or a failure signal.
-/

namespace PreGrading

/-- A raised Python exception, as observed by `except Exception as e` handlers:
`type(e).__name__` and `str(e)`. -/
structure PyErr where
  name : String
  msg : String
deriving DecidableEq

/-- `str.lower()` (ASCII-faithful model, character by character). -/
def lowerName (s : String) : String := ⟨s.data.map Char.toLower⟩

/-- `str.startswith(pre)`: `pre` is a prefix of the string. -/
def py_startswith (s pre : String) : Bool := pre.data.isPrefixOf s.data

/-- A whitespace character as `str.strip()` sees it (ASCII model). -/
def isPySpace (c : Char) : Bool :=
  c == ' ' || c == '\t' || c == '\n' || c == '\r' || c == '\x0b' || c == '\x0c'

/-- `str.strip()`: remove leading and trailing whitespace. -/
def pyStrip (s : String) : String :=
  ⟨((s.data.dropWhile isPySpace).reverse.dropWhile isPySpace).reverse⟩

/-- Code-point-wise lexicographic comparison of character lists — the order
Python uses to compare the sort keys (`str.__lt__` on code points). -/
def keyLe : List Char → List Char → Bool
  | [], _ => true
  | _ :: _, [] => false
  | a :: as, b :: bs => if a.toNat = b.toNat then keyLe as bs else decide (a.toNat < b.toNat)

/-- `"".join(parts)` — concatenation of a list of strings. -/
def joinParts : List String → String
  | [] => ""
  | p :: ps => p ++ joinParts ps

/-- `f"123:03d"`-style zero padding used for alias ids: `f"..alias_counter:03d.."`. -/
def pad3 (n : Nat) : String :=
  let s := toString n
  String.mk (List.replicate (3 - s.length) '0' ++ s.data)

/-- An apostrophe character, used inside prompt literals. -/
def apos : String := String.singleton (Char.ofNat 39)

/-! ### Severity heuristic (`_count_severities`, main.py lines 414-422)

`_count_severities` lowercases the response and counts the regex matches of
`\bmajor\b` and `\bmoderate\b`.  We model the regex word boundary `\b` over the
ASCII word characters `[a-zA-Z0-9_]` and the `re.findall` scan that restarts
after the end of each match. -/

/-- A regex word character (`\w`, ASCII model): letters, digits, underscore. -/
def isWordChar (c : Char) : Bool := c.isAlphanum || c == '_'

/-- Whether a word boundary `\b` holds before a word character, given the
character immediately to the left (`none` at the start of the text). -/
def boundaryOk : Option Char → Bool
  | none => true
  | some c => !isWordChar c

/-- The regex `\btok\b` (for a token made of word characters) matches at the
start of `t`, where `prev` is the character just before `t` in the whole
text. -/
def tokenAt (tok : List Char) (prev : Option Char) (t : List Char) : Bool :=
  tok.isPrefixOf t && boundaryOk prev &&
    (match t.drop tok.length with
     | [] => true
     | c :: _ => !isWordChar c)

/-- The `re.findall(r"\btok\b", text)` scan, with explicit fuel (one unit per
consumed character, so the text's length is always enough): scan left to
right; on a match, continue after the matched token (so `prev` becomes the
token's last character); otherwise advance one character. -/
def findallCountFuel (tok : List Char) : Nat → Option Char → List Char → Nat
  | 0, _, _ => 0
  | _, _, [] => 0
  | fuel + 1, prev, c :: rest =>
    if tok ≠ [] ∧ tokenAt tok prev (c :: rest) = true then
      1 + findallCountFuel tok fuel (some (tok.getLastD ' ')) (rest.drop (tok.length - 1))
    else
      findallCountFuel tok fuel (some c) rest

/-- The number of matches `re.findall(r"\btok\b", text)` returns. -/
def findallCount (tok : List Char) (prev : Option Char) (t : List Char) : Nat :=
  findallCountFuel tok t.length prev t

/-- Specification-level count: walk every position of the text and add one for
each position at which a word-bounded occurrence of the token starts. -/
def boundedOccFrom (tok : List Char) : Option Char → List Char → Nat
  | _, [] => 0
  | prev, c :: rest =>
    (if tokenAt tok prev (c :: rest) then 1 else 0) + boundedOccFrom tok (some c) rest

/-- The number of word-bounded, case-insensitive occurrences of `tok` in
`text` (the specification's reading of the severity heuristic). -/
def wordBoundedCountCI (tok text : String) : Nat :=
  boundedOccFrom (lowerName tok).data none (lowerName text).data

/-- A word-bounded occurrence of the token starts at absolute position `i` of
`t` (the left boundary judged from the character at `i - 1`). -/
def occursAt (tok t : List Char) (i : Nat) : Bool :=
  tokenAt tok (if i = 0 then none else t[i - 1]?) (t.drop i)

/-- A second, position-set reading of the same specification sentence: the
number of positions of `t` at which a word-bounded occurrence of `tok`
starts. -/
def wordOccurrencesPos (tok t : List Char) : Nat :=
  (List.range t.length).countP (occursAt tok t)

/-- `_count_severities(text)`: lowercase the text, then count the regex matches
of `\bmajor\b` and `\bmoderate\b` (main.py lines 414-422). -/
def count_severities (text : String) : Nat × Nat :=
  (findallCount "major".data none (lowerName text).data,
   findallCount "moderate".data none (lowerName text).data)

/-! ### Submission discovery (`_discover_submission_units`, main.py lines 112-155)

A top-level entry of the submissions directory is a name together with what the
filesystem reports it to be (`is_dir`, `is_file`, or neither — e.g. a broken
symlink), plus a copy capability flag: whether `shutil.copytree`/`shutil.copy2`
succeeds on it (it raises when the entry's contents cannot be read/copied). -/

inductive EntryKind where
  | dir
  | file
  | other
deriving DecidableEq

structure FsEntry where
  name : String
  kind : EntryKind
  copyOk : Bool
deriving DecidableEq

/-- `_is_hidden` (main.py lines 109-110). -/
def pyIsHidden (name : String) : Bool :=
  py_startswith name "." || py_startswith name "__"

/-- The reserved names skipped by discovery and pruned by the walker. -/
def SKIP_DIRS : List String := ["materials", "outputs"]

/-- Whether a top-level entry survives the discovery filter:
not hidden and name not (case-insensitively) a reserved name. -/
def discoveryKept (e : FsEntry) : Bool :=
  !pyIsHidden e.name && !(SKIP_DIRS.contains (lowerName e.name))

/-- The case-insensitive-by-name order `key=lambda p: p.name.lower()`. -/
def entryLe (a b : FsEntry) : Prop :=
  keyLe (lowerName a.name).data (lowerName b.name).data = true

instance : DecidableRel entryLe := fun a b => by unfold entryLe; infer_instance

/-- `sorted(submissions_dir.iterdir(), key=lambda p: p.name.lower())` followed
by the filtering comprehension (main.py lines 119-122).  Python's sort is
stable; it is modelled by the library's stable insertion sort. -/
def discoveryEntries (entries : List FsEntry) : List FsEntry :=
  (entries.insertionSort entryLe).filter discoveryKept

/-- The discovery output record (paths are filesystem references and are not
modelled; `alias_id`, `original_name` and `notes` are the fields the claims
are about). -/
structure SubmissionUnit where
  alias_id : String
  original_name : String
  notes : String
deriving DecidableEq

/-- The discovery loop (main.py lines 127-153): allocate `alias_id` from the
counter, copy the entry (`shutil.copytree` for a directory, `shutil.copy2` for
a file — an error there propagates, there is no handler in the source), and
decrement the counter without emitting a unit for an entry that is neither a
directory nor a regular file. -/
def discoverLoop : Nat → List FsEntry → Except String (List SubmissionUnit)
  | _, [] => .ok []
  | k, e :: rest =>
    let alias_id := pad3 k
    match e.kind with
    | .other => discoverLoop (k + 1 - 1) rest
    | .dir =>
      if e.copyOk then
        match discoverLoop (k + 1) rest with
        | .ok us => .ok (⟨alias_id, e.name, "multi-file folder"⟩ :: us)
        | .error m => .error m
      else .error ("shutil.copytree failed for " ++ e.name)
    | .file =>
      if e.copyOk then
        match discoverLoop (k + 1) rest with
        | .ok us => .ok (⟨alias_id, e.name, "single file"⟩ :: us)
        | .error m => .error m
      else .error ("shutil.copy2 failed for " ++ e.name)

/-- `_discover_submission_units` (main.py lines 112-155).  `.error` models an
exception escaping the function. -/
def discover_submission_units (entries : List FsEntry) : Except String (List SubmissionUnit) :=
  discoverLoop 1 (discoveryEntries entries)

/-- Whether a sorted-and-filtered entry actually consumes an alias id. -/
def consumesAlias (e : FsEntry) : Bool := decide (e.kind ≠ EntryKind.other)

/-! ### Text extraction (main.py lines 196-249)

The PDF capability (`fitz.open`) returns the document's pages or raises; a page
carries its embedded text layer (`page.get_text("text")`) and the OCR outcome
on its rasterization.  The OCR capability (`pytesseract`) may be unavailable
(module missing), may raise, or returns a string. -/

inductive OcrOutcome where
  | raised (msg : String)
  | text (s : String)
deriving DecidableEq

structure PdfPage where
  textLayer : String
  ocr : OcrOutcome
deriving DecidableEq

inductive ImageOpen where
  | failed (msg : String)
  | opened (ocr : OcrOutcome)
deriving DecidableEq

/-- The external capabilities visible to the extraction service. -/
structure World where
  ocrAvailable : Bool
  pdfs : String → Except PyErr (List PdfPage)
  fileExists : String → Bool
  images : String → ImageOpen

/-- `_ocr_image` (main.py lines 204-210). -/
def ocr_image (w : World) (o : OcrOutcome) : String :=
  if w.ocrAvailable then
    match o with
    | .raised e => "[UNREADABLE] OCR failed: " ++ e
    | .text s => s
  else "[UNREADABLE] OCR not available."

/-- The per-page body of the extraction loop (main.py lines 226-235): take the
trimmed text layer; if it is shorter than 10 characters, rasterize and OCR;
use the OCR text when it is non-empty and not an `[UNREADABLE]` signal,
otherwise substitute the page sentinel.  Returns the page text and whether the
OCR text was used. -/
def pageText (w : World) (pg : PdfPage) : String × Bool :=
  if (pyStrip pg.textLayer).length < 10 then
    if !py_startswith (ocr_image w pg.ocr) "[UNREADABLE]"
        && !(pyStrip (ocr_image w pg.ocr) == "") then
      (ocr_image w pg.ocr, true)
    else ("[UNREADABLE_PAGE] No extractable text; OCR unavailable/failed.", false)
  else (pyStrip pg.textLayer, false)

/-- The page header plus page text (main.py line 236). -/
def pageChunk (total i : Nat) (txt : String) : String :=
  "\n--- PAGE " ++ toString (i + 1) ++ "/" ++ toString total ++ " ---\n" ++ txt ++ "\n"

/-- The extraction loop over the processed pages, starting at page index `i`:
the per-page chunks and the `ocr_pages` counter. -/
def pdfParts (w : World) (total : Nat) : Nat → List PdfPage → List String × Nat
  | _, [] => ([], 0)
  | i, pg :: rest =>
    let pt := pageText w pg
    let tail := pdfParts w total (i + 1) rest
    (pageChunk total i pt.1 :: tail.1, (if pt.2 then 1 else 0) + tail.2)

/-- `limit = min(total, max_pages) if max_pages is not None else total`. -/
def pageLimit (total : Nat) (maxPages : Option Nat) : Nat :=
  match maxPages with
  | some m => min total m
  | none => total

/-- `extract_pdf_text_with_ocr_fallback` (main.py lines 212-239).  `fitz.open`
raising (e.g. for a missing or malformed file) propagates: the function has no
handler, so the model returns `.error`.  The `dpi` argument only affects the
rasterization handed to the OCR capability, which the page model already
carries, so it is unused here. -/
def extract_pdf_text_with_ocr_fallback (w : World) (pdf_path : String)
    (maxPages : Option Nat) (dpi : Nat) : Except PyErr (String × Nat × Nat) :=
  match w.pdfs pdf_path with
  | .error e => .error e
  | .ok doc =>
    let total := doc.length
    let limit := pageLimit total maxPages
    let pr := pdfParts w total 0 (doc.take limit)
    let _ := dpi
    .ok (joinParts pr.1, total, pr.2)

/-- `Path(p).name`: the final path component. -/
def fileBaseName (p : String) : String := String.mk ((p.data.splitOn '/').getLastD p.data)

/-- `extract_image_text` (main.py lines 241-249). -/
def extract_image_text (w : World) (img_path : String) : String :=
  match w.images img_path with
  | .failed e => "[ERROR] Failed to open image " ++ fileBaseName img_path ++ ": " ++ e
  | .opened o =>
    if pyStrip (ocr_image w o) == "" || py_startswith (ocr_image w o) "[UNREADABLE]" then
      "[UNREADABLE_IMAGE] " ++ fileBaseName img_path ++ ": OCR unavailable or failed."
    else ocr_image w o

/-- The image-file sentinel produced by `extract_image_text`. -/
def unreadableImageMsg (img_path : String) : String :=
  "[UNREADABLE_IMAGE] " ++ fileBaseName img_path ++ ": OCR unavailable or failed."

/-- The claim's stated condition for when `extract_image_text` returns the
`[UNREADABLE_IMAGE]` sentinel: the file opens as an image, and the OCR
capability is unavailable or yields empty text. -/
def sentinelOnlyWhenStated (w : World) (p : String) : Prop :=
  extract_image_text w p = unreadableImageMsg p →
    ∃ o, w.images p = .opened o ∧
      (w.ocrAvailable = false ∨ ∃ s, o = .text s ∧ pyStrip s = "")

/-! ### Per-alias file gathering (`_gather_submission_files`, main.py 390-400)

An alias's `normalized_dir` is a directory tree: subdirectories (each a name
with its own tree) and files.  `os.walk` visits a directory's files, then
recurses into its subdirectories after pruning the reserved names; the
collected supported files are finally sorted case-insensitively by
basename. -/

mutual
inductive FsTree where
  | node (dirs : FsDirs) (files : List String)
inductive FsDirs where
  | nil
  | cons (name : String) (sub : FsTree) (rest : FsDirs)
end

/-- A collected file: basename and full path. -/
structure FileRef where
  name : String
  path : String
deriving DecidableEq

mutual
/-- `os.walk` with the reserved-subdirectory pruning of
`_gather_submission_files`. -/
def walkTree (base : String) : FsTree → List FileRef
  | .node dirs files =>
    files.map (fun n => ⟨n, base ++ "/" ++ n⟩) ++ walkDirs base dirs
def walkDirs (base : String) : FsDirs → List FileRef
  | .nil => []
  | .cons d sub rest =>
    (if SKIP_DIRS.contains (lowerName d) then [] else walkTree (base ++ "/" ++ d) sub)
      ++ walkDirs base rest
end

/-- `pathlib.PurePath.suffix`: the extension (with dot) of the final
component, empty when the name has no internal dot before its last
character. -/
def pySuffix (name : String) : String :=
  let cs := name.data
  match ((cs.enum.filter (fun x => x.2 == '.')).getLast?).map (·.1) with
  | none => ""
  | some i => if 0 < i ∧ i < cs.length - 1 then String.mk (cs.drop i) else ""

def PDF_EXTS : List String := [".pdf"]

def IMG_EXTS : List String := [".png", ".jpg", ".jpeg"]

/-- The lowercased suffix of a collected file. -/
def fileExt (f : FileRef) : String := lowerName (pySuffix f.name)

/-- The case-insensitive-by-basename order `key=lambda x: x.name.lower()`. -/
def fileLe (a b : FileRef) : Prop :=
  keyLe (lowerName a.name).data (lowerName b.name).data = true

instance : DecidableRel fileLe := fun a b => by unfold fileLe; infer_instance

/-- `_gather_submission_files` (main.py lines 390-400): walk, keep supported
extensions, sort case-insensitively by basename (Python's stable sort,
modelled by the stable insertion sort). -/
def gather_submission_files (tree : FsTree) : List FileRef :=
  ((walkTree "" tree).filter
    (fun f => (PDF_EXTS ++ IMG_EXTS).contains (fileExt f))).insertionSort fileLe

/-! ### Per-alias grading (`_grade_one_alias`, main.py lines 424-499) -/

/-- Everything one alias's task reads: the extraction capabilities, the
alias's `normalized_dir` tree, the configured problem/solution paths, and the
analysis capability (`Runner.run_sync` off-loaded through
`asyncio.to_thread`), which returns the response text or raises. -/
structure GradeEnv where
  world : World
  tree : FsTree
  problem_pdf : Option String
  solution_pdf : Option String
  agentCall : String → Except PyErr String

def noFilesMsg : String := "[No supported files (PDF/PNG/JPG) found for this submission.]"

def noProblemMsg : String := "[INFO] Problem PDF not provided or not found."

def noSolutionMsg : String := "[WARN] No solution PDF provided; analysis may be limited."

/-- The problem-text step (main.py lines 448-454). -/
def problemClause (env : GradeEnv) : Except PyErr (String × Nat × Nat) :=
  match env.problem_pdf with
  | some p =>
    if env.world.fileExists p then
      extract_pdf_text_with_ocr_fallback env.world p (some 15) 200
    else .ok (noProblemMsg, 0, 0)
  | none => .ok (noProblemMsg, 0, 0)

/-- The solution-clause step (main.py lines 456-462). -/
def solutionClause (env : GradeEnv) : Except PyErr String :=
  match env.solution_pdf with
  | some p =>
    if env.world.fileExists p then
      match extract_pdf_text_with_ocr_fallback env.world p (some 15) 200 with
      | .error e => .error e
      | .ok r =>
        .ok ("Solution (PDF→text; pages=" ++ toString r.2.1 ++ ", ocr_pages="
          ++ toString r.2.2 ++ "):\n" ++ r.1)
    else .ok noSolutionMsg
  | none => .ok noSolutionMsg

/-- The per-submission-file extraction loop (main.py lines 464-475). -/
def submissionBlobs (w : World) : List FileRef → Except PyErr (List String)
  | [] => .ok []
  | f :: rest =>
    if PDF_EXTS.contains (fileExt f) then
      match extract_pdf_text_with_ocr_fallback w f.path (some 25) 200 with
      | .error e => .error e
      | .ok r =>
        match submissionBlobs w rest with
        | .error e => .error e
        | .ok bs =>
          .ok (("\n=== SUBMISSION (PDF): " ++ f.name ++ " ===\n[meta] pages="
            ++ toString r.2.1 ++ ", ocr_pages=" ++ toString r.2.2 ++ "\n" ++ r.1 ++ "\n") :: bs)
    else if IMG_EXTS.contains (fileExt f) then
      match submissionBlobs w rest with
      | .error e => .error e
      | .ok bs =>
        .ok (("\n=== SUBMISSION (IMAGE): " ++ f.name ++ " ===\n"
          ++ extract_image_text w f.path ++ "\n") :: bs)
    else submissionBlobs w rest

/-- The `USER` prompt (main.py lines 477-489), after the trailing `.strip()`. -/
def buildUserPrompt (probText : String) (probPages probOcr : Nat) (solutionCl : String)
    (blobs : List String) : String :=
  "Problem (PDF→text; pages=" ++ toString probPages ++ ", ocr_pages=" ++ toString probOcr
    ++ "):\n" ++ probText ++ "\n\n" ++ solutionCl
    ++ "\n\nStudent submission(s) (analyze for problem points):\n" ++ joinParts blobs
    ++ "\n\nTask:\nIdentify likely problem points in the student" ++ apos
    ++ "s work. Classify by severity (major, moderate, minor). Do not grade.\nIf unreadable, say so and stop."

/-- The body of the `try:` block of `_grade_one_alias`, together with the
number of analysis-capability calls it issued.  Each fallible step's exception
propagates to the handler as `.error`; the short-circuit for an alias with no
supported files issues no call. -/
def gradeRun (env : GradeEnv) : Except PyErr (Nat × Nat × String) × Nat :=
  match gather_submission_files env.tree with
  | [] => (.ok (0, 0, noFilesMsg), 0)
  | f :: fs =>
    match problemClause env with
    | .error e => (.error e, 0)
    | .ok pr =>
      match solutionClause env with
      | .error e => (.error e, 0)
      | .ok sol_cl =>
        match submissionBlobs env.world (f :: fs) with
        | .error e => (.error e, 0)
        | .ok blobs =>
          match env.agentCall (buildUserPrompt pr.1 pr.2.1 pr.2.2 sol_cl blobs) with
          | .error e => (.error e, 1)
          | .ok out =>
            let mm := count_severities out
            (.ok (mm.1, mm.2, out), 1)

/-- The tuple `_grade_one_alias` returns. -/
structure GradingOutcome where
  alias_id : String
  original_name : String
  major_count : Nat
  moderate_count : Nat
  agent_output : String
deriving DecidableEq

/-- `_grade_one_alias` (main.py lines 424-499): run the body; the
`except Exception` handler turns any raised exception into an outcome with
zero severities and the error embedded in `agent_output`.  The function is
total — no exception escapes a per-alias task. -/
def grade_one_alias (env : GradeEnv) (u : SubmissionUnit) : GradingOutcome :=
  match (gradeRun env).1 with
  | .ok r => ⟨u.alias_id, u.original_name, r.1, r.2.1, r.2.2⟩
  | .error e => ⟨u.alias_id, u.original_name, 0, 0, "[ERROR] " ++ e.name ++ ": " ++ e.msg⟩

/-! ### Fan-in and the results table (main.py lines 386-388 and 639-651)

`asyncio.gather` stores each task's result at the task's submission index and
returns only after every task completed; the completion order is arbitrary. -/

/-- Record the tasks' results in completion order: each completing task writes
only its own slot. -/
def applyCompletions (n : Nat) (res : Fin n → GradingOutcome) :
    List (Fin n) → (Fin n → Option GradingOutcome) → Fin n → Option GradingOutcome
  | [], acc => acc
  | t :: order, acc => applyCompletions n res order (Function.update acc t (some (res t)))

/-- The list `asyncio.gather` returns, given the completion order: the slots
read back in task-submission order.  The default is unreachable once every
task completed. -/
def gatherOutcomes (n : Nat) (res : Fin n → GradingOutcome) (order : List (Fin n)) :
    List GradingOutcome :=
  (List.finRange n).map
    (fun i => (applyCompletions n res order (fun _ => none) i).getD ⟨"", "", 0, 0, ""⟩)

def resultsHeader : List String :=
  ["alias_id", "original_name", "major_count", "moderate_count", "agent_output"]

/-- One `pregrading_results.csv` row (main.py line 651).  (The
`isinstance(r, Exception)` branch of the writer is dead: `_grade_one_alias`
is total, so `gather` never yields an exception object.) -/
def rowOf (o : GradingOutcome) : List String :=
  [o.alias_id, o.original_name, toString o.major_count, toString o.moderate_count,
    o.agent_output]

/-- The full results table: header row, then one row per gathered outcome
(main.py lines 642-651). -/
def writeResultsTable (n : Nat) (res : Fin n → GradingOutcome) (order : List (Fin n)) :
    List (List String) :=
  resultsHeader :: (gatherOutcomes n res order).map rowOf

/-! ### The admission gate (main.py lines 438, 492, 627-639)

One state machine step per scheduler action.  Each task corresponds to one
discovered submission unit and runs `_grade_one_alias`: it first acquires the
semaphore (`async with sem` — `asyncio.Semaphore.acquire` proceeds only when
the counter is positive and decrements it), may start its single blocking
analysis call (`await asyncio.to_thread(...)`), the call returns (or the body
finishes without calling: short-circuit or an earlier exception), and on
leaving the `async with` block the semaphore counter is incremented again. -/

inductive TaskPhase where
  | pending
  | working
  | calling
  | post
  | finished
deriving DecidableEq

structure DispatchState where
  sem : Nat
  tasks : List TaskPhase
deriving DecidableEq

/-- A task currently holding a semaphore slot. -/
def isHolder : TaskPhase → Bool
  | .working => true
  | .calling => true
  | .post => true
  | _ => false

def holders (s : DispatchState) : Nat := s.tasks.countP isHolder

/-- The number of analysis-capability calls currently in flight. -/
def inflightCalls (s : DispatchState) : Nat :=
  s.tasks.countP (fun p => p == TaskPhase.calling)

inductive DispatchStep : DispatchState → DispatchState → Prop where
  | acquire (s : DispatchState) (i : Nat) (hp : s.tasks[i]? = some .pending)
      (hs : 0 < s.sem) : DispatchStep s ⟨s.sem - 1, s.tasks.set i .working⟩
  | startCall (s : DispatchState) (i : Nat) (hp : s.tasks[i]? = some .working) :
      DispatchStep s ⟨s.sem, s.tasks.set i .calling⟩
  | endCall (s : DispatchState) (i : Nat) (hp : s.tasks[i]? = some .calling) :
      DispatchStep s ⟨s.sem, s.tasks.set i .post⟩
  | skipCall (s : DispatchState) (i : Nat) (hp : s.tasks[i]? = some .working) :
      DispatchStep s ⟨s.sem, s.tasks.set i .post⟩
  | release (s : DispatchState) (i : Nat) (hp : s.tasks[i]? = some .post) :
      DispatchStep s ⟨s.sem + 1, s.tasks.set i .finished⟩

/-- `sem = asyncio.Semaphore(cfg.max_async)` with all per-unit tasks submitted
at once. -/
def initState (bound n : Nat) : DispatchState := ⟨bound, List.replicate n .pending⟩

def DispatchReachable (bound n : Nat) (s : DispatchState) : Prop :=
  Relation.ReflTransGen DispatchStep (initState bound n) s

/-! ### CLI root resolution (`_resolve_homeworks_root`, main.py lines 83-91)

Paths are modelled at the component level (`Path.parts`); `expanduser` and
`resolve` are filesystem normalizations outside the compared logic.
`Path("./Homeworks") / p` has components `"Homeworks" :: p.parts` (pathlib
drops the leading `"."`). -/

def resolve_homeworks_root (parts : List String) : List String :=
  if parts.any (fun part => lowerName part == "homeworks") then parts
  else "Homeworks" :: parts

/-- The claim's stated rule: a component literally equal to `"Homeworks"`. -/
def resolveSpecLiteral (parts : List String) : List String :=
  if parts.contains "Homeworks" then parts else "Homeworks" :: parts

/-! ### Concrete inputs used by witnesses and counterexamples -/

def exEntries : List FsEntry :=
  [⟨"Bob", .file, true⟩, ⟨"alice", .dir, true⟩, ⟨"Materials", .dir, true⟩,
   ⟨".git", .dir, true⟩, ⟨"link", .other, true⟩]

def exUnits : List SubmissionUnit :=
  [⟨"001", "alice", "multi-file folder"⟩, ⟨"002", "Bob", "single file"⟩]

def badDirEntry : FsEntry := ⟨"student1", .dir, false⟩

def skipEntries : List FsEntry := [⟨"carol", .file, true⟩, ⟨"dangling", .other, false⟩]

/-- A world in which the PDF capability raises on every path. -/
def noOpenWorld : World where
  ocrAvailable := false
  pdfs := fun _ => .error ⟨"RuntimeError", "cannot open broken.pdf"⟩
  fileExists := fun _ => false
  images := fun _ => .failed "no such file"

/-- A world holding a two-page PDF — a first page with a real text layer and
a second page with none — with the OCR capability unavailable. -/
def twoPageWorld : World where
  ocrAvailable := false
  pdfs := fun p =>
    if p = "two.pdf" then .ok [⟨"This is a long enough text layer.", .text ""⟩, ⟨"", .text ""⟩]
    else .error ⟨"RuntimeError", "no such file"⟩
  fileExists := fun p => p = "two.pdf"
  images := fun _ => .failed "no such file"

/-- A world holding one single-page PDF whose page has no text layer, with the
OCR capability unavailable. -/
def scannedPdfWorld : World where
  ocrAvailable := false
  pdfs := fun p => if p = "scan.pdf" then .ok [⟨"", .text ""⟩] else .error ⟨"RuntimeError", "no such file"⟩
  fileExists := fun p => p = "scan.pdf"
  images := fun _ => .failed "no such file"

/-- A world where OCR is installed but raises on the one image present. -/
def ocrRaisesWorld : World where
  ocrAvailable := true
  pdfs := fun _ => .error ⟨"RuntimeError", "no such file"⟩
  fileExists := fun _ => false
  images := fun p => if p = "scan.png" then .opened (.raised "tesseract crashed") else .failed "no such file"

/-- An environment whose alias directory holds one PDF (an empty document in
the world) and whose analysis capability raises. -/
def agentFailEnv : GradeEnv where
  world :=
    { ocrAvailable := false
      pdfs := fun p => if p = "/hw.pdf" then .ok [] else .error ⟨"RuntimeError", "no such file"⟩
      fileExists := fun _ => false
      images := fun _ => .failed "no such file" }
  tree := .node .nil ["hw.pdf"]
  problem_pdf := none
  solution_pdf := none
  agentCall := fun _ => .error ⟨"RuntimeError", "analysis backend unreachable"⟩

/-- An environment whose alias directory holds no supported files: one text
file at the top and one PDF hidden inside a pruned reserved subdirectory. -/
def emptyAliasEnv : GradeEnv where
  world := noOpenWorld
  tree := .node (.cons "Materials" (.node .nil ["problems.pdf"]) .nil) ["notes.txt"]
  problem_pdf := none
  solution_pdf := none
  agentCall := fun _ => .ok "should never be called"

def exAlias : SubmissionUnit := ⟨"001", "alice", "multi-file folder"⟩

def exAlias2 : SubmissionUnit := ⟨"002", "Bob", "single file"⟩

/-- A dispatcher state with one call in flight under bound 1. -/
def exDispatchMid : DispatchState := ⟨0, [.calling, .pending]⟩

/-! ## Helper lemmas -/

/-- Two strings extending prefixes that are incomparable as character lists
are distinct. -/
theorem str_ne_of_incomparable {a b : String} {s t : String}
    (ha : a.data <+: s.data) (hb : b.data <+: t.data)
    (h : ¬ (a.data <+: b.data ∨ b.data <+: a.data)) : s ≠ t := by
  intro hst
  subst hst
  exact h (List.prefix_or_prefix_of_prefix ha hb)

/-- A member of a list of parts is an infix of their concatenation. -/
theorem joinParts_data_infix (parts : List String) (p : String) (hp : p ∈ parts) :
    p.data <:+: (joinParts parts).data := by
  induction parts with
  | nil => cases hp
  | cons q ps ih =>
    rcases List.mem_cons.mp hp with h | h
    · subst h
      exact ⟨[], (joinParts ps).data, by simp [joinParts, String.data_append]⟩
    · obtain ⟨s, t, hst⟩ := ih h
      exact ⟨q.data ++ s, t, by
        simp only [joinParts, String.data_append, ← hst, List.append_assoc]⟩

/-- A discovery loop over entries whose directory/file members all copy
successfully returns normally. -/
theorem discoverLoop_ok_of_copyOk (l : List FsEntry) :
    ∀ k, (∀ e ∈ l, e.kind ≠ EntryKind.other → e.copyOk = true) →
      ∃ us, discoverLoop k l = .ok us := by
  induction l with
  | nil => exact fun k _ => ⟨[], rfl⟩
  | cons e rest ih =>
    intro k h
    have hrest : ∀ x ∈ rest, x.kind ≠ EntryKind.other → x.copyOk = true :=
      fun x hx => h x (List.mem_cons_of_mem _ hx)
    cases hk : e.kind with
    | other =>
      obtain ⟨us, hus⟩ := ih k hrest
      exact ⟨us, by simp [discoverLoop, hk, hus]⟩
    | dir =>
      have hc : e.copyOk = true := h e (List.mem_cons_self _ _) (by simp [hk])
      obtain ⟨us, hus⟩ := ih (k + 1) hrest
      exact ⟨⟨pad3 k, e.name, "multi-file folder"⟩ :: us,
        by simp [discoverLoop, hk, hc, hus]⟩
    | file =>
      have hc : e.copyOk = true := h e (List.mem_cons_self _ _) (by simp [hk])
      obtain ⟨us, hus⟩ := ih (k + 1) hrest
      exact ⟨⟨pad3 k, e.name, "single file"⟩ :: us,
        by simp [discoverLoop, hk, hc, hus]⟩

/-- `keyLe` is total. -/
theorem keyLe_total : ∀ a b : List Char, (keyLe a b || keyLe b a) = true := by
  intro a
  induction a with
  | nil => intro b; simp [keyLe]
  | cons x xs ih =>
    intro b
    cases b with
    | nil => simp [keyLe]
    | cons y ys =>
      by_cases hxy : x.toNat = y.toNat
      · simp only [keyLe]
        rw [if_pos hxy, if_pos hxy.symm]
        exact ih ys
      · have hyx : ¬ y.toNat = x.toNat := fun h => hxy h.symm
        simp only [keyLe, if_neg hxy, if_neg hyx]
        rcases Nat.lt_or_ge x.toNat y.toNat with h | h
        · simp [h]
        · have : y.toNat < x.toNat := lt_of_le_of_ne h (Ne.symm hxy)
          simp [this]

/-- `keyLe` is transitive. -/
theorem keyLe_trans :
    ∀ a b c : List Char, keyLe a b = true → keyLe b c = true → keyLe a c = true := by
  intro a
  induction a with
  | nil => intro b c _ _; rfl
  | cons x xs ih =>
    intro b c hab hbc
    cases b with
    | nil => simp [keyLe] at hab
    | cons y ys =>
      cases c with
      | nil => simp [keyLe] at hbc
      | cons z zs =>
        simp only [keyLe] at hab hbc ⊢
        by_cases hxy : x.toNat = y.toNat
        · rw [if_pos hxy] at hab
          by_cases hyz : y.toNat = z.toNat
          · rw [if_pos hyz] at hbc
            rw [if_pos (hxy.trans hyz)]
            exact ih ys zs hab hbc
          · rw [if_neg hyz] at hbc
            have hlt : y.toNat < z.toNat := of_decide_eq_true hbc
            have hxz : x.toNat < z.toNat := hxy ▸ hlt
            rw [if_neg (Nat.ne_of_lt hxz)]
            exact decide_eq_true hxz
        · rw [if_neg hxy] at hab
          have hxylt : x.toNat < y.toNat := of_decide_eq_true hab
          by_cases hyz : y.toNat = z.toNat
          · have hxz : x.toNat < z.toNat := hyz ▸ hxylt
            rw [if_neg (Nat.ne_of_lt hxz)]
            exact decide_eq_true hxz
          · rw [if_neg hyz] at hbc
            have hyzlt : y.toNat < z.toNat := of_decide_eq_true hbc
            have hxz : x.toNat < z.toNat := Nat.lt_trans hxylt hyzlt
            rw [if_neg (Nat.ne_of_lt hxz)]
            exact decide_eq_true hxz

/-- The discovery loop assigns the dense id sequence `pad3 k, pad3 (k+1), …`
to exactly the directory/file entries, in list order. -/
theorem discoverLoop_ids (l : List FsEntry) :
    ∀ k us, discoverLoop k l = .ok us →
      us.map (fun u => u.alias_id) = (List.range us.length).map (fun i => pad3 (k + i)) ∧
      us.map (fun u => u.original_name) = (l.filter consumesAlias).map (fun e => e.name) := by
  induction l with
  | nil =>
    intro k us h
    simp only [discoverLoop] at h
    cases h
    simp
  | cons e rest ih =>
    intro k us h
    cases hk : e.kind with
    | other =>
      rw [discoverLoop, hk] at h
      simp only [Nat.add_sub_cancel] at h
      obtain ⟨h1, h2⟩ := ih k us h
      refine ⟨h1, ?_⟩
      rw [h2]
      have : consumesAlias e = false := by simp [consumesAlias, hk]
      simp [List.filter_cons, this]
    | dir =>
      rw [discoverLoop, hk] at h
      cases hck : e.copyOk with
      | false =>
        rw [hck] at h
        simp at h
      | true =>
        rw [hck, if_pos rfl] at h
        cases hrec : discoverLoop (k + 1) rest with
        | error m => rw [hrec] at h; cases h
        | ok us' =>
          rw [hrec] at h
          cases h
          obtain ⟨h1, h2⟩ := ih (k + 1) us' hrec
          have hcons : consumesAlias e = true := by simp [consumesAlias, hk]
          constructor
          · simp only [List.map_cons, List.length_cons, List.range_succ_eq_map,
              List.map_map, h1]
            refine congrArg (pad3 (k + 0) :: ·) ?_
            apply List.map_congr_left
            intro i _
            simp only [Function.comp_apply]
            congr 1
            omega
          · simp [List.filter_cons, hcons, h2]
    | file =>
      rw [discoverLoop, hk] at h
      cases hck : e.copyOk with
      | false =>
        rw [hck] at h
        simp at h
      | true =>
        rw [hck, if_pos rfl] at h
        cases hrec : discoverLoop (k + 1) rest with
        | error m => rw [hrec] at h; cases h
        | ok us' =>
          rw [hrec] at h
          cases h
          obtain ⟨h1, h2⟩ := ih (k + 1) us' hrec
          have hcons : consumesAlias e = true := by simp [consumesAlias, hk]
          constructor
          · simp only [List.map_cons, List.length_cons, List.range_succ_eq_map,
              List.map_map, h1]
            refine congrArg (pad3 (k + 0) :: ·) ?_
            apply List.map_congr_left
            intro i _
            simp only [Function.comp_apply]
            congr 1
            omega
          · simp [List.filter_cons, hcons, h2]

/-! ## C5 -/

/-- C5: on a successful discovery run the alias ids are exactly the dense
zero-padded sequence 001, 002, … (no gaps, no reuse) over the kept entries;
the produced units follow the case-insensitively sorted order of the top-level
entries that are neither hidden nor reserved, and an entry that is neither a
directory nor a regular file is skipped without consuming an alias id (the
units are exactly the kept directory/file entries). -/
theorem discovery_alias_ids (entries : List FsEntry) (us : List SubmissionUnit)
    (h : discover_submission_units entries = .ok us) :
    us.map (fun u => u.alias_id) = (List.range us.length).map (fun i => pad3 (1 + i)) ∧
    us.map (fun u => u.original_name)
      = ((discoveryEntries entries).filter consumesAlias).map (fun e => e.name) ∧
    (us.map (fun u => u.original_name)).Pairwise
      (fun a b => keyLe (lowerName a).data (lowerName b).data = true) ∧
    (us.map (fun u => u.original_name)).Perm
      (((entries.filter discoveryKept).filter consumesAlias).map (fun e => e.name)) := by
  obtain ⟨h1, h2⟩ := discoverLoop_ids (discoveryEntries entries) 1 us h
  refine ⟨h1, h2, ?_, ?_⟩
  · rw [h2]
    haveI : IsTotal FsEntry entryLe := ⟨fun a b => by
      have := keyLe_total (lowerName a.name).data (lowerName b.name).data
      rcases Bool.or_eq_true_iff.mp this with hx | hx
      · exact Or.inl hx
      · exact Or.inr hx⟩
    haveI : IsTrans FsEntry entryLe := ⟨fun a b c hab hbc => keyLe_trans _ _ _ hab hbc⟩
    have hsorted : (entries.insertionSort entryLe).Pairwise entryLe :=
      List.sorted_insertionSort entryLe entries
    have hkept : (discoveryEntries entries).Pairwise entryLe :=
      hsorted.filter discoveryKept
    have hcons : ((discoveryEntries entries).filter consumesAlias).Pairwise entryLe :=
      hkept.filter consumesAlias
    rw [List.pairwise_map]
    exact hcons.imp (fun hab => hab)
  · rw [h2]
    have hperm : (entries.insertionSort entryLe).Perm entries :=
      List.perm_insertionSort entryLe entries
    exact ((hperm.filter discoveryKept).filter consumesAlias).map (fun e => e.name)

/-- C5 witness: a concrete directory with a hidden entry, a reserved entry,
a broken link, a directory and a file. -/
theorem discovery_alias_ids_witness :
    discover_submission_units exEntries = .ok exUnits ∧
    exUnits.map (fun u => u.alias_id) = ["001", "002"] := by
  have h : discover_submission_units exEntries = .ok exUnits := by rfl
  refine ⟨h, ?_⟩
  rw [(discovery_alias_ids exEntries exUnits h).1]
  rfl

/-- A page whose trimmed text layer is short while OCR is unavailable gets the
page sentinel. -/
theorem pageText_sentinel (w : World) (pg : PdfPage)
    (hshort : (pyStrip pg.textLayer).length < 10) (hocr : w.ocrAvailable = false) :
    (pageText w pg).1 = "[UNREADABLE_PAGE] No extractable text; OCR unavailable/failed." := by
  have h1 : ocr_image w pg.ocr = "[UNREADABLE] OCR not available." := by
    simp [ocr_image, hocr]
  unfold pageText
  rw [if_pos hshort, h1]
  rfl

/-- Every processed page contributes its chunk to the parts list. -/
theorem pdfParts_mem_chunk (w : World) (total : Nat) :
    ∀ (pgs : List PdfPage) (i0 : Nat) (pg : PdfPage), pg ∈ pgs →
      ∃ j, pageChunk total j (pageText w pg).1 ∈ (pdfParts w total i0 pgs).1 := by
  intro pgs
  induction pgs with
  | nil => intro i0 pg h; cases h
  | cons q ps ih =>
    intro i0 pg h
    rcases List.mem_cons.mp h with h | h
    · subst h
      exact ⟨i0, by simp [pdfParts]⟩
    · obtain ⟨j, hj⟩ := ih (i0 + 1) pg h
      refine ⟨j, ?_⟩
      simp only [pdfParts]
      exact List.mem_cons_of_mem _ hj

/-! ## C4 -/

/-- C4 counterexample: `extract_document` is not total — when the PDF
capability cannot open the path (`fitz.open` raises, and
`extract_pdf_text_with_ocr_fallback` has no handler), the exception
propagates instead of a triple being returned; indeed both callers wrap the
call in their own `try`/`except`.  Also, the sentinel clause fails as stated
for pages beyond `max_pages`: a two-page document whose second page has no
text layer, extracted with `max_pages = 1` and OCR unavailable, returns a
text with no `[UNREADABLE_PAGE]` sentinel at all. -/
theorem extract_document_counterexample :
    extract_pdf_text_with_ocr_fallback noOpenWorld "broken.pdf" none 200
      = .error ⟨"RuntimeError", "cannot open broken.pdf"⟩ ∧
    extract_pdf_text_with_ocr_fallback twoPageWorld "two.pdf" (some 1) 200
      = .ok ("\n--- PAGE 1/2 ---\nThis is a long enough text layer.\n", 2, 0) ∧
    ¬ ("[UNREADABLE_PAGE]".data
        <:+: ("\n--- PAGE 1/2 ---\nThis is a long enough text layer.\n" : String).data) := by
  refine ⟨by rfl, by rfl, by decide⟩

/-- C4 (amended): for every document the PDF capability opens successfully,
`extract_document` returns a `(text, total_pages, ocr_pages_used)` triple, and
for every processed page (index below `min(total, max_pages)`) whose embedded
text layer trims to fewer than 10 characters while the OCR capability is
unavailable, the returned text contains the `[UNREADABLE_PAGE]` sentinel. -/
theorem extract_document_amended (w : World) (pdf_path : String) (maxPages : Option Nat)
    (dpi : Nat) (doc : List PdfPage) (hopen : w.pdfs pdf_path = .ok doc) :
    ∃ text ocrN, extract_pdf_text_with_ocr_fallback w pdf_path maxPages dpi
        = .ok (text, doc.length, ocrN) ∧
      ∀ i pg, i < pageLimit doc.length maxPages → doc[i]? = some pg →
        (pyStrip pg.textLayer).length < 10 → w.ocrAvailable = false →
        "[UNREADABLE_PAGE]".data <:+: text.data := by
  refine ⟨joinParts (pdfParts w doc.length 0 (doc.take (pageLimit doc.length maxPages))).1,
    (pdfParts w doc.length 0 (doc.take (pageLimit doc.length maxPages))).2, ?_, ?_⟩
  · unfold extract_pdf_text_with_ocr_fallback
    rw [hopen]
  · intro i pg hi hget hshort hocr
    have hmem : pg ∈ doc.take (pageLimit doc.length maxPages) := by
      refine List.getElem?_mem (show (doc.take (pageLimit doc.length maxPages))[i]? = some pg
        from ?_)
      rw [List.getElem?_take, if_pos hi]
      exact hget
    obtain ⟨j, hj⟩ := pdfParts_mem_chunk w doc.length
      (doc.take (pageLimit doc.length maxPages)) 0 pg hmem
    have hpt : (pageText w pg).1
        = "[UNREADABLE_PAGE] No extractable text; OCR unavailable/failed." :=
      pageText_sentinel w pg hshort hocr
    have hpre : ("[UNREADABLE_PAGE]" : String).data
        <+: ("[UNREADABLE_PAGE] No extractable text; OCR unavailable/failed." : String).data := by
      decide
    obtain ⟨tl, htl⟩ := hpre
    have h1 : ("[UNREADABLE_PAGE]" : String).data
        <:+: ("[UNREADABLE_PAGE] No extractable text; OCR unavailable/failed." : String).data :=
      ⟨[], tl, by simp [htl]⟩
    have h2 : ("[UNREADABLE_PAGE] No extractable text; OCR unavailable/failed." : String).data
        <:+: (pageChunk doc.length j (pageText w pg).1).data := by
      rw [hpt]
      exact ⟨("\n--- PAGE " ++ toString (j + 1) ++ "/" ++ toString doc.length ++ " ---\n").data,
        ("\n" : String).data, by simp [pageChunk, String.data_append, List.append_assoc]⟩
    have h3 := joinParts_data_infix _ _ hj
    exact (h1.trans h2).trans h3

/-- C4 witness: a one-page scanned PDF with no OCR available opens, returns a
triple, and its text carries the page sentinel. -/
theorem extract_document_amended_witness :
    scannedPdfWorld.pdfs "scan.pdf" = .ok [⟨"", .text ""⟩] ∧
    (∃ text ocrN, extract_pdf_text_with_ocr_fallback scannedPdfWorld "scan.pdf" none 200
        = .ok (text, ([(⟨"", .text ""⟩ : PdfPage)] : List PdfPage).length, ocrN) ∧
      ∀ i pg, i < pageLimit ([(⟨"", .text ""⟩ : PdfPage)] : List PdfPage).length none →
        ([(⟨"", .text ""⟩ : PdfPage)] : List PdfPage)[i]? = some pg →
        (pyStrip pg.textLayer).length < 10 → scannedPdfWorld.ocrAvailable = false →
        "[UNREADABLE_PAGE]".data <:+: text.data) :=
  ⟨rfl, extract_document_amended scannedPdfWorld "scan.pdf" none 200 [⟨"", .text ""⟩] rfl⟩

/-! ## C10 -/

/-- C10 counterexample: with the OCR capability installed but raising on the
opened image, `extract_image` still returns the `[UNREADABLE_IMAGE]` sentinel,
so the sentinel is not returned only when OCR is unavailable or yields empty
text. -/
theorem extract_image_counterexample :
    extract_image_text ocrRaisesWorld "scan.png" = unreadableImageMsg "scan.png" ∧
    ocrRaisesWorld.ocrAvailable = true ∧
    ocrRaisesWorld.images "scan.png" = .opened (.raised "tesseract crashed") ∧
    ¬ sentinelOnlyWhenStated ocrRaisesWorld "scan.png" := by
  refine ⟨by rfl, rfl, by rfl, ?_⟩
  intro hclaim
  obtain ⟨o, ho, hcase⟩ := hclaim (by rfl)
  have ho2 : OcrOutcome.raised "tesseract crashed" = o := by
    have : ImageOpen.opened (OcrOutcome.raised "tesseract crashed") = ImageOpen.opened o := by
      rw [← ho]; rfl
    injection this
  rcases hcase with havail | ⟨s, hs, _⟩
  · exact absurd havail (by decide)
  · rw [← ho2] at hs
    simp at hs

/-- C10 (amended): for a path that cannot be opened as an image,
`extract_image` does not raise and does not return the `[UNREADABLE_IMAGE]`
sentinel — it returns the `[ERROR] Failed to open image` text naming the
file; the sentinel line is returned exactly when the file opens but the OCR
capability is unavailable, raises, or yields text that is empty, carries the
`[UNREADABLE]` marker, or coincides with the sentinel line itself. -/
theorem extract_image_amended (w : World) (p : String) :
    (∀ e, w.images p = .failed e →
      extract_image_text w p = "[ERROR] Failed to open image " ++ fileBaseName p ++ ": " ++ e ∧
      extract_image_text w p ≠ unreadableImageMsg p) ∧
    (extract_image_text w p = unreadableImageMsg p ↔
      ∃ o, w.images p = .opened o ∧
        (w.ocrAvailable = false ∨ (∃ m, o = .raised m) ∨
          ∃ s, o = .text s ∧ (pyStrip s = "" ∨ py_startswith s "[UNREADABLE]" = true
            ∨ s = unreadableImageMsg p))) := by
  have hmarkNA : py_startswith "[UNREADABLE] OCR not available." "[UNREADABLE]" = true := by
    decide
  cases him : w.images p with
  | failed e0 =>
    have hext : extract_image_text w p
        = "[ERROR] Failed to open image " ++ fileBaseName p ++ ": " ++ e0 := by
      unfold extract_image_text
      rw [him]
    have hne : extract_image_text w p ≠ unreadableImageMsg p := by
      rw [hext]
      refine str_ne_of_incomparable (a := "[ERROR] Failed to open image ")
        (b := "[UNREADABLE_IMAGE] ") ?_ ?_ ?_
      · simp only [String.data_append, List.append_assoc]
        exact List.prefix_append _ _
      · unfold unreadableImageMsg
        simp only [String.data_append, List.append_assoc]
        exact List.prefix_append _ _
      · decide
    refine ⟨?_, ?_, ?_⟩
    · intro e he
      have he0 : e0 = e := by injection he
      subst he0
      exact ⟨hext, hne⟩
    · intro habs
      exact absurd habs hne
    · rintro ⟨o, ho, _⟩
      exact absurd ho (by simp)
  | opened o0 =>
    have hext : extract_image_text w p
        = if pyStrip (ocr_image w o0) == "" || py_startswith (ocr_image w o0) "[UNREADABLE]"
          then unreadableImageMsg p else ocr_image w o0 := by
      unfold extract_image_text unreadableImageMsg
      rw [him]
    refine ⟨?_, ?_⟩
    · intro e he
      exact absurd he (by simp)
    · cases hcond : (pyStrip (ocr_image w o0) == ""
          || py_startswith (ocr_image w o0) "[UNREADABLE]") with
      | true =>
        rw [hcond, if_pos rfl] at hext
        constructor
        · intro _
          refine ⟨o0, rfl, ?_⟩
          cases hav : w.ocrAvailable with
          | false => exact Or.inl rfl
          | true =>
            cases ho0 : o0 with
            | raised m => exact Or.inr (Or.inl ⟨m, rfl⟩)
            | text s =>
              have hocr : ocr_image w o0 = s := by
                simp [ocr_image, hav, ho0]
              rw [hocr] at hcond
              refine Or.inr (Or.inr ⟨s, rfl, ?_⟩)
              rcases Bool.or_eq_true_iff.mp hcond with h | h
              · exact Or.inl (by simpa using h)
              · exact Or.inr (Or.inl h)
        · intro _
          exact hext
      | false =>
        rw [hcond] at hext
        simp only [Bool.false_eq_true, if_false] at hext
        constructor
        · intro habs
          rw [hext] at habs
          refine ⟨o0, rfl, ?_⟩
          cases hav : w.ocrAvailable with
          | false => exact Or.inl rfl
          | true =>
            cases ho0 : o0 with
            | raised m => exact Or.inr (Or.inl ⟨m, rfl⟩)
            | text s =>
              have hocr : ocr_image w o0 = s := by
                simp [ocr_image, hav, ho0]
              refine Or.inr (Or.inr ⟨s, rfl, Or.inr (Or.inr ?_)⟩)
              rw [← hocr]
              exact habs
        · rintro ⟨o, ho, hdis⟩
          have heq : o0 = o := by injection ho
          subst heq
          rcases hdis with hav | ⟨m, hm⟩ | ⟨s, hs, hcase⟩
          · exfalso
            have h1 : ocr_image w o0 = "[UNREADABLE] OCR not available." := by
              simp [ocr_image, hav]
            rw [h1, hmarkNA, Bool.or_true] at hcond
            cases hcond
          · exfalso
            subst hm
            cases hav : w.ocrAvailable with
            | false =>
              have h1 : ocr_image w (OcrOutcome.raised m)
                  = "[UNREADABLE] OCR not available." := by
                simp [ocr_image, hav]
              rw [h1, hmarkNA, Bool.or_true] at hcond
              cases hcond
            | true =>
              have h1 : ocr_image w (OcrOutcome.raised m)
                  = "[UNREADABLE] OCR failed: " ++ m := by
                simp [ocr_image, hav]
              have hps : py_startswith ("[UNREADABLE] OCR failed: " ++ m) "[UNREADABLE]"
                  = true := by
                unfold py_startswith
                rw [List.isPrefixOf_iff_prefix]
                simp only [String.data_append]
                exact List.IsPrefix.trans
                  (show ("[UNREADABLE]" : String).data
                    <+: ("[UNREADABLE] OCR failed: " : String).data by decide)
                  (List.prefix_append _ _)
              rw [h1, hps, Bool.or_true] at hcond
              cases hcond
          · subst hs
            cases hav : w.ocrAvailable with
            | false =>
              exfalso
              have h1 : ocr_image w (OcrOutcome.text s)
                  = "[UNREADABLE] OCR not available." := by
                simp [ocr_image, hav]
              rw [h1, hmarkNA, Bool.or_true] at hcond
              cases hcond
            | true =>
              have h1 : ocr_image w (OcrOutcome.text s) = s := by
                simp [ocr_image, hav]
              rcases hcase with hempty | hstart | hsmsg
              · exfalso
                rw [h1, hempty] at hcond
                simp at hcond
              · exfalso
                rw [h1, hstart, Bool.or_true] at hcond
                cases hcond
              · rw [hext, h1, hsmsg]

/-- C10 witness: an unopenable path yields the `[ERROR]` text, and an opened
image with raising OCR yields the sentinel. -/
theorem extract_image_amended_witness :
    extract_image_text noOpenWorld "x/y.png"
      = "[ERROR] Failed to open image " ++ fileBaseName "x/y.png" ++ ": " ++ "no such file" ∧
    extract_image_text ocrRaisesWorld "scan.png" = unreadableImageMsg "scan.png" :=
  ⟨((extract_image_amended noOpenWorld "x/y.png").1 "no such file" rfl).1,
   (extract_image_amended ocrRaisesWorld "scan.png").2.mpr
     ⟨.raised "tesseract crashed", rfl, Or.inr (Or.inl ⟨"tesseract crashed", rfl⟩)⟩⟩

/-! ## C7 -/

/-- C7 counterexample: a top-level directory entry whose contents cannot be
copied makes discovery raise (`shutil.copytree` has no handler in
`_discover_submission_units`), instead of being skipped. -/
theorem discover_counterexample_copy_failure :
    discover_submission_units [badDirEntry] = .error "shutil.copytree failed for student1" := by
  rfl

/-- C7 (amended): discovery never raises for a top-level entry that is neither
a directory nor a regular file (such an entry is only skipped); when every
kept directory/file entry's copy succeeds, discovery returns the unit list
normally. -/
theorem discover_total_when_copies_ok (entries : List FsEntry)
    (h : ∀ e ∈ discoveryEntries entries, e.kind ≠ EntryKind.other → e.copyOk = true) :
    ∃ us, discover_submission_units entries = .ok us :=
  discoverLoop_ok_of_copyOk (discoveryEntries entries) 1 h

/-- C7 witness: a run whose entries include a broken link (neither directory
nor file, and not even copyable) still returns normally. -/
theorem discover_total_when_copies_ok_witness :
    ∃ us, discover_submission_units skipEntries = .ok us :=
  discover_total_when_copies_ok skipEntries (by decide)

/-! ## C8 -/

/-- C8: an alias whose `normalized_dir` holds no supported files (pdf, png,
jpg, jpeg after pruning reserved subdirectories) short-circuits: the task
returns the deterministic "no supported files" outcome with zero severities
and issues no analysis-capability call. -/
theorem grade_short_circuit_no_supported_files (env : GradeEnv) (u : SubmissionUnit)
    (h : gather_submission_files env.tree = []) :
    grade_one_alias env u = ⟨u.alias_id, u.original_name, 0, 0, noFilesMsg⟩ ∧
    (gradeRun env).2 = 0 := by
  constructor
  · simp [grade_one_alias, gradeRun, h]
  · simp [gradeRun, h]

/-- C8 witness: an alias directory holding only a text file and a PDF inside
a pruned reserved subdirectory gathers no supported files, and the task
short-circuits with no analysis call. -/
theorem grade_short_circuit_witness :
    gather_submission_files emptyAliasEnv.tree = [] ∧
    grade_one_alias emptyAliasEnv exAlias = ⟨"001", "alice", 0, 0, noFilesMsg⟩ ∧
    (gradeRun emptyAliasEnv).2 = 0 := by
  have h : gather_submission_files emptyAliasEnv.tree = [] := by rfl
  exact ⟨h, (grade_short_circuit_no_supported_files emptyAliasEnv exAlias h).1,
    (grade_short_circuit_no_supported_files emptyAliasEnv exAlias h).2⟩

/-! ## C9 -/

/-- C9 counterexample: for `--folder homeworks/hw1` no component is literally
equal to `"Homeworks"`, so the claim requires resolution under the
`./Homeworks` root, but the code's comparison is case-insensitive and uses
the path as-is. -/
theorem resolve_root_counterexample :
    resolve_homeworks_root ["homeworks", "hw1"] = ["homeworks", "hw1"] ∧
    resolveSpecLiteral ["homeworks", "hw1"] = ["Homeworks", "homeworks", "hw1"] := by
  constructor <;> rfl

/-- C9 (amended): if the given path contains a component case-insensitively
equal to the reserved root name, the path is used as-is; otherwise it is
resolved underneath the `./Homeworks` root. -/
theorem resolve_root_amended (parts : List String) :
    ((∃ part ∈ parts, lowerName part = "homeworks") → resolve_homeworks_root parts = parts) ∧
    ((∀ part ∈ parts, lowerName part ≠ "homeworks") →
      resolve_homeworks_root parts = "Homeworks" :: parts) := by
  constructor
  · rintro ⟨p, hp, hl⟩
    have : parts.any (fun part => lowerName part == "homeworks") = true :=
      List.any_eq_true.mpr ⟨p, hp, by simp [hl]⟩
    simp [resolve_homeworks_root, this]
  · intro h
    have : parts.any (fun part => lowerName part == "homeworks") = false := by
      rw [List.any_eq_false]
      intro p hp
      simpa using h p hp
    simp [resolve_homeworks_root, this]

/-- C9 witness: a path already containing a `Homeworks` component is used
as-is; a bare folder name is resolved under the root. -/
theorem resolve_root_amended_witness :
    resolve_homeworks_root ["Homeworks", "hw1"] = ["Homeworks", "hw1"] ∧
    resolve_homeworks_root ["calc1"] = ["Homeworks", "calc1"] :=
  ⟨(resolve_root_amended ["Homeworks", "hw1"]).1 ⟨"Homeworks", by simp, by rfl⟩,
   (resolve_root_amended ["calc1"]).2 (by intro p hp; simp at hp; subst hp; decide)⟩

/-- `_grade_one_alias` returns the task's own alias identity on every path
(success, short-circuit, or caught exception). -/
theorem grade_preserves_alias (env : GradeEnv) (u : SubmissionUnit) :
    (grade_one_alias env u).alias_id = u.alias_id ∧
    (grade_one_alias env u).original_name = u.original_name := by
  unfold grade_one_alias
  cases (gradeRun env).1 <;> simp

/-! ## C2 -/

/-- C2: if the body of one alias's task raises anywhere (gathering,
extraction, prompt building, or the analysis call), that task still returns
an outcome with zero severities and the error description embedded in
`agent_output`; every other task's entry in the batch is exactly its own
`_grade_one_alias` outcome, unaffected by the failure, and the batch list is
a total function of the tasks (no exception escapes). -/
theorem grade_failure_isolated (l : List (GradeEnv × SubmissionUnit)) (i : Nat)
    (pr : GradeEnv × SubmissionUnit) (e : PyErr)
    (hp : l[i]? = some pr) (h : (gradeRun pr.1).1 = .error e) :
    (l.map (fun x => grade_one_alias x.1 x.2))[i]?
      = some ⟨pr.2.alias_id, pr.2.original_name, 0, 0,
          "[ERROR] " ++ e.name ++ ": " ++ e.msg⟩ ∧
    ∀ (j : Nat) (q : GradeEnv × SubmissionUnit), l[j]? = some q →
      (l.map (fun x => grade_one_alias x.1 x.2))[j]? = some (grade_one_alias q.1 q.2) := by
  constructor
  · rw [List.getElem?_map, hp]
    have : grade_one_alias pr.1 pr.2
        = ⟨pr.2.alias_id, pr.2.original_name, 0, 0,
            "[ERROR] " ++ e.name ++ ": " ++ e.msg⟩ := by
      simp [grade_one_alias, h]
    rw [Option.map_some', this]
  · intro j q hq
    rw [List.getElem?_map, hq]
    rfl

/-- C2 witness: a batch of two aliases where the first's analysis capability
raises; the first row embeds the error with zero severities and the second is
untouched. -/
theorem grade_failure_isolated_witness :
    ([(agentFailEnv, exAlias), (emptyAliasEnv, exAlias2)].map
        (fun x => grade_one_alias x.1 x.2))[0]?
      = some ⟨"001", "alice", 0, 0, "[ERROR] RuntimeError: analysis backend unreachable"⟩ ∧
    ∀ (j : Nat) (q : GradeEnv × SubmissionUnit),
      [(agentFailEnv, exAlias), (emptyAliasEnv, exAlias2)][j]? = some q →
      ([(agentFailEnv, exAlias), (emptyAliasEnv, exAlias2)].map
        (fun x => grade_one_alias x.1 x.2))[j]? = some (grade_one_alias q.1 q.2) :=
  grade_failure_isolated [(agentFailEnv, exAlias), (emptyAliasEnv, exAlias2)] 0
    (agentFailEnv, exAlias) ⟨"RuntimeError", "analysis backend unreachable"⟩ rfl (by rfl)

/-! ## C3 -/

/-- A slot whose task has not completed keeps its previous contents. -/
theorem applyCompletions_not_mem (n : Nat) (res : Fin n → GradingOutcome) :
    ∀ (order : List (Fin n)) (acc : Fin n → Option GradingOutcome) (i : Fin n),
      i ∉ order → applyCompletions n res order acc i = acc i := by
  intro order
  induction order with
  | nil => intro acc i _; rfl
  | cons t rest ih =>
    intro acc i hi
    have hit : i ≠ t := fun h => hi (h ▸ List.mem_cons_self t rest)
    have hrest : i ∉ rest := fun h => hi (List.mem_cons_of_mem t h)
    simp only [applyCompletions]
    rw [ih _ i hrest, Function.update_noteq hit]

/-- Once a task completed, its slot holds its own result, regardless of the
surrounding completion order. -/
theorem applyCompletions_mem (n : Nat) (res : Fin n → GradingOutcome) :
    ∀ (order : List (Fin n)) (acc : Fin n → Option GradingOutcome) (i : Fin n),
      i ∈ order → applyCompletions n res order acc i = some (res i) := by
  intro order
  induction order with
  | nil => intro acc i hi; cases hi
  | cons t rest ih =>
    intro acc i hi
    by_cases hr : i ∈ rest
    · simp only [applyCompletions]
      exact ih _ i hr
    · have hit : i = t := by
        rcases List.mem_cons.mp hi with h | h
        · exact h
        · exact absurd h hr
      subst hit
      simp only [applyCompletions]
      rw [applyCompletions_not_mem n res rest _ i hr, Function.update_same]

/-- When every task completed, `gather` returns the results in task-submission
order, whatever the completion order was. -/
theorem gatherOutcomes_eq (n : Nat) (res : Fin n → GradingOutcome) (order : List (Fin n))
    (hcov : ∀ i, i ∈ order) :
    gatherOutcomes n res order = (List.finRange n).map res := by
  unfold gatherOutcomes
  apply List.map_congr_left
  intro i _
  rw [applyCompletions_mem n res order _ i (hcov i)]
  rfl

/-- C3: once every per-alias task completed (in any order), the results table
is the header row followed by exactly one row per discovered unit, in
discovery order; with zero units it is the header row alone; and row `i`
carries unit `i`'s alias id. -/
theorem results_table_full_coverage (units : List SubmissionUnit)
    (envs : Fin units.length → GradeEnv) (order : List (Fin units.length))
    (hcov : ∀ i, i ∈ order) :
    writeResultsTable units.length (fun i => grade_one_alias (envs i) (units.get i)) order
      = resultsHeader :: (List.finRange units.length).map
          (fun i => rowOf (grade_one_alias (envs i) (units.get i))) ∧
    (writeResultsTable units.length (fun i => grade_one_alias (envs i) (units.get i))
        order).length = units.length + 1 ∧
    (units = [] → writeResultsTable units.length
        (fun i => grade_one_alias (envs i) (units.get i)) order = [resultsHeader]) ∧
    ∀ i : Fin units.length,
      (writeResultsTable units.length (fun i => grade_one_alias (envs i) (units.get i))
          order)[i.1 + 1]?
        = some (rowOf (grade_one_alias (envs i) (units.get i))) ∧
      (rowOf (grade_one_alias (envs i) (units.get i)))[0]? = some (units.get i).alias_id := by
  have htab : writeResultsTable units.length
      (fun i => grade_one_alias (envs i) (units.get i)) order
      = resultsHeader :: (List.finRange units.length).map
          (fun i => rowOf (grade_one_alias (envs i) (units.get i))) := by
    unfold writeResultsTable
    rw [gatherOutcomes_eq units.length (fun i => grade_one_alias (envs i) (units.get i))
      order hcov, List.map_map]
    rfl
  refine ⟨htab, ?_, ?_, ?_⟩
  · rw [htab]
    simp
  · intro hu
    subst hu
    rw [htab]
    rfl
  · intro i
    constructor
    · rw [htab]
      simp only [List.getElem?_cons_succ, List.getElem?_map]
      rw [List.getElem?_eq_getElem (by simp [i.isLt])]
      simp [List.getElem_finRange]
    · simp only [rowOf, List.getElem?_cons_zero]
      rw [(grade_preserves_alias (envs i) (units.get i)).1]

/-- C3 witness: two units whose tasks complete in reverse order still produce
the header plus one row per unit in discovery order. -/
theorem results_table_full_coverage_witness :
    writeResultsTable 2
        (fun i => grade_one_alias ((fun _ => emptyAliasEnv) i) ([exAlias, exAlias2].get i))
        [1, 0]
      = resultsHeader :: (List.finRange 2).map
          (fun i => rowOf (grade_one_alias ((fun _ => emptyAliasEnv) i)
            ([exAlias, exAlias2].get i))) :=
  (results_table_full_coverage [exAlias, exAlias2] (fun _ => emptyAliasEnv)
    [⟨1, by decide⟩, ⟨0, by decide⟩] (by decide)).1

/-- Inside a run of word characters no word-bounded occurrence can start
(the word boundary before the token fails), so the position count just walks
through the run. -/
theorem boundedOccFrom_wordRun (tok : List Char) :
    ∀ (w : List Char) (r : List Char) (pc : Char), isWordChar pc = true →
      (∀ d ∈ w, isWordChar d = true) →
      boundedOccFrom tok (some pc) (w ++ r)
        = boundedOccFrom tok (some (w.getLastD pc)) r := by
  intro w
  induction w with
  | nil => intro r pc _ _; rfl
  | cons d w2 ih =>
    intro r pc hpc hw
    have hd : isWordChar d = true := hw d (List.mem_cons_self _ _)
    have hstep : boundedOccFrom tok (some pc) ((d :: w2) ++ r)
        = (if tokenAt tok (some pc) (d :: (w2 ++ r)) then 1 else 0)
          + boundedOccFrom tok (some d) (w2 ++ r) := rfl
    rw [hstep]
    have hfalse : tokenAt tok (some pc) (d :: (w2 ++ r)) = false := by
      simp [tokenAt, boundaryOk, hpc]
    rw [hfalse]
    simp only [Bool.false_eq_true, if_false, Nat.zero_add]
    rw [ih r d hd (fun x hx => hw x (List.mem_cons_of_mem _ hx))]
    rw [List.getLastD_cons]

/-- The `re.findall` scan — which skips past each match — counts exactly the
positions at which a word-bounded occurrence of the token starts, for a
nonempty token made of word characters. -/
theorem findallCount_eq_boundedOccFrom (tok : List Char) (hne : tok ≠ [])
    (hw : ∀ c ∈ tok, isWordChar c = true) :
    ∀ (t : List Char) (prev : Option Char),
      findallCount tok prev t = boundedOccFrom tok prev t := by
  have main : ∀ (n : Nat) (t : List Char), t.length ≤ n → ∀ (prev : Option Char),
      findallCountFuel tok n prev t = boundedOccFrom tok prev t := by
    intro n
    induction n with
    | zero =>
      intro t ht prev
      have ht0 : t = [] := List.eq_nil_of_length_eq_zero (Nat.le_zero.mp ht)
      subst ht0
      rfl
    | succ n ih =>
      intro t ht prev
      cases t with
      | nil => rfl
      | cons c rest =>
        have hrlen : rest.length ≤ n := by
          simp only [List.length_cons] at ht
          omega
        by_cases hmatch : tokenAt tok prev (c :: rest) = true
        · have hun : findallCountFuel tok (n + 1) prev (c :: rest)
              = 1 + findallCountFuel tok n (some (tok.getLastD ' '))
                  (rest.drop (tok.length - 1)) := by
            show (if tok ≠ [] ∧ tokenAt tok prev (c :: rest) = true then _ else _) = _
            rw [if_pos ⟨hne, hmatch⟩]
          have hpre : tok <+: (c :: rest) := by
            have h1 : tok.isPrefixOf (c :: rest) = true := by
              simp only [tokenAt, Bool.and_eq_true] at hmatch
              exact hmatch.1.1
            exact List.isPrefixOf_iff_prefix.mp h1
          obtain ⟨r2, hr⟩ := hpre
          obtain ⟨c0, tokTail, htok⟩ : ∃ c0 tokTail, tok = c0 :: tokTail := by
            cases htk : tok with
            | nil => exact absurd htk hne
            | cons a b => exact ⟨a, b, rfl⟩
          subst htok
          rw [List.cons_append] at hr
          injection hr with hc hrest
          have hdrop : rest.drop ((c0 :: tokTail).length - 1) = r2 := by
            rw [← hrest]
            simp [List.drop_left]
          have hrhs : boundedOccFrom (c0 :: tokTail) prev (c :: rest)
              = 1 + boundedOccFrom (c0 :: tokTail) (some c) rest := by
            have hstep : boundedOccFrom (c0 :: tokTail) prev (c :: rest)
                = (if tokenAt (c0 :: tokTail) prev (c :: rest) then 1 else 0)
                  + boundedOccFrom (c0 :: tokTail) (some c) rest := rfl
            rw [hstep, hmatch, if_pos rfl]
          have hlast : (c0 :: tokTail).getLastD ' ' = tokTail.getLastD c := by
            rw [List.getLastD_cons, hc]
          have hrun : boundedOccFrom (c0 :: tokTail) (some c) (tokTail ++ r2)
              = boundedOccFrom (c0 :: tokTail) (some (tokTail.getLastD c)) r2 := by
            apply boundedOccFrom_wordRun
            · rw [← hc]
              exact hw c0 (List.mem_cons_self _ _)
            · intro d hd
              exact hw d (List.mem_cons_of_mem _ hd)
          have hr2len : r2.length ≤ n := by
            have h2 : r2.length ≤ rest.length := by
              rw [← hrest]
              simp
            omega
          rw [hun, hdrop, hlast, hrhs, ← hrest, hrun]
          rw [ih r2 hr2len (some (tokTail.getLastD c))]
        · have hun : findallCountFuel tok (n + 1) prev (c :: rest)
              = findallCountFuel tok n (some c) rest := by
            show (if tok ≠ [] ∧ tokenAt tok prev (c :: rest) = true then _ else _) = _
            rw [if_neg (fun hcon => hmatch hcon.2)]
          have hmf : tokenAt tok prev (c :: rest) = false :=
            Bool.eq_false_iff.mpr hmatch
          have hrhs : boundedOccFrom tok prev (c :: rest)
              = (if tokenAt tok prev (c :: rest) then 1 else 0)
                + boundedOccFrom tok (some c) rest := rfl
          rw [hun, hrhs, hmf]
          simp only [Bool.false_eq_true, if_false, Nat.zero_add]
          exact ih rest hrlen (some c)
  intro t prev
  exact main t.length t le_rfl prev

/-- The position-by-position walk counts exactly the set of absolute
positions at which a word-bounded occurrence starts. -/
theorem boundedOccFrom_eq_positions (tok : List Char) :
    ∀ (suf pre : List Char),
      boundedOccFrom tok pre.getLast? suf
        = (List.range suf.length).countP
            (fun j => occursAt tok (pre ++ suf) (pre.length + j)) := by
  intro suf
  induction suf with
  | nil => intro pre; rfl
  | cons c rest ih =>
    intro pre
    have hstep : boundedOccFrom tok pre.getLast? (c :: rest)
        = (if tokenAt tok pre.getLast? (c :: rest) then 1 else 0)
          + boundedOccFrom tok (some c) rest := rfl
    have hdrop0 : (pre ++ c :: rest).drop (pre.length + 0) = c :: rest := by
      rw [Nat.add_zero]
      exact List.drop_left pre (c :: rest)
    have hprev0 : (if pre.length + 0 = 0 then none
          else (pre ++ c :: rest)[pre.length + 0 - 1]?)
        = pre.getLast? := by
      rw [Nat.add_zero]
      by_cases hp : pre.length = 0
      · rw [if_pos hp]
        have hnil : pre = [] := List.eq_nil_of_length_eq_zero hp
        subst hnil
        rfl
      · rw [if_neg hp, List.getElem?_append_left (by omega), List.getLast?_eq_getElem?]
    have hhead : occursAt tok (pre ++ c :: rest) (pre.length + 0)
        = tokenAt tok pre.getLast? (c :: rest) := by
      unfold occursAt
      rw [hprev0, hdrop0]
    have htail : ∀ j, occursAt tok (pre ++ c :: rest) (pre.length + (j + 1))
        = occursAt tok ((pre ++ [c]) ++ rest) ((pre ++ [c]).length + j) := by
      intro j
      have h1 : pre ++ c :: rest = (pre ++ [c]) ++ rest := by simp
      have h2 : pre.length + (j + 1) = (pre ++ [c]).length + j := by
        simp only [List.length_append, List.length_cons, List.length_nil]
        omega
      rw [h1, h2]
    have hc1 : (List.range rest.length).countP
          ((fun j => occursAt tok (pre ++ c :: rest) (pre.length + j)) ∘ Nat.succ)
        = boundedOccFrom tok (some c) rest := by
      rw [List.countP_congr (fun x _ => by
        simp only [Function.comp_apply]
        rw [htail x])]
      rw [← ih (pre ++ [c]), List.getLast?_concat]
    show boundedOccFrom tok pre.getLast? (c :: rest)
        = (List.range (rest.length + 1)).countP
            (fun j => occursAt tok (pre ++ c :: rest) (pre.length + j))
    rw [hstep, List.range_succ_eq_map, List.countP_cons, List.countP_map, hc1]
    have hif : (if occursAt tok (pre ++ c :: rest) (pre.length + 0) = true then 1 else 0)
        = (if tokenAt tok pre.getLast? (c :: rest) = true then 1 else 0) := by
      rw [hhead]
    simp only [hif]
    omega

/-! ## C6 -/

/-- C6: `_count_severities` returns exactly the number of word-bounded,
case-insensitive occurrences of the tokens "major" and "moderate"; "minor" is
not counted, and a word merely containing a token as a substring (such as
"majority") contributes zero — witnessed by the spec's concrete examples. -/
theorem count_severities_word_bounded (text : String) :
    count_severities text
      = (wordBoundedCountCI "major" text, wordBoundedCountCI "moderate" text) ∧
    count_severities text
      = (wordOccurrencesPos "major".data (lowerName text).data,
         wordOccurrencesPos "moderate".data (lowerName text).data) ∧
    count_severities "Major issue found and a moderate mistake" = (1, 1) ∧
    count_severities "majority opinion" = (0, 0) ∧
    count_severities "minor slip only" = (0, 0) := by
  have h1 := findallCount_eq_boundedOccFrom "major".data (by decide) (by decide)
    ((lowerName text).data) none
  have h2 := findallCount_eq_boundedOccFrom "moderate".data (by decide) (by decide)
    ((lowerName text).data) none
  have h3 : ∀ tok : List Char, boundedOccFrom tok none ((lowerName text).data)
      = wordOccurrencesPos tok (lowerName text).data := by
    intro tok
    have h := boundedOccFrom_eq_positions tok ((lowerName text).data) []
    simpa [wordOccurrencesPos] using h
  refine ⟨?_, ?_, by decide, by decide, by decide⟩
  · unfold count_severities wordBoundedCountCI
    rw [h1, h2]
    rfl
  · unfold count_severities
    rw [h1, h2, h3, h3]

/-- One dispatcher step preserves the semaphore balance: free slots plus
tasks inside the `async with sem` block stay equal to the bound, and the task
count never changes. -/
theorem dispatch_step_invariant (bound : Nat) (a b : DispatchState)
    (step : DispatchStep a b) (ih1 : a.sem + holders a = bound) :
    b.sem + holders b = bound ∧ b.tasks.length = a.tasks.length := by
  cases step with
  | acquire i hp hs =>
    obtain ⟨hlt, hval⟩ := List.getElem?_eq_some.mp hp
    refine ⟨?_, by simp⟩
    show (a.sem - 1) + (a.tasks.set i .working).countP isHolder = bound
    rw [List.countP_set isHolder a.tasks i _ hlt, hval]
    unfold holders at ih1
    simp only [isHolder]
    simp only [show (if True then (1 : Nat) else 0) = 1 from rfl,
      show (if (false = true) then (1 : Nat) else 0) = 0 from rfl,
      show (if (true = true) then (1 : Nat) else 0) = 1 from rfl]
    omega
  | startCall i hp =>
    obtain ⟨hlt, hval⟩ := List.getElem?_eq_some.mp hp
    have hpos : 0 < a.tasks.countP isHolder :=
      List.countP_pos_iff.mpr ⟨a.tasks[i], List.getElem_mem hlt, by rw [hval]; rfl⟩
    refine ⟨?_, by simp⟩
    show a.sem + (a.tasks.set i .calling).countP isHolder = bound
    rw [List.countP_set isHolder a.tasks i _ hlt, hval]
    unfold holders at ih1
    simp only [isHolder]
    simp only [show (if True then (1 : Nat) else 0) = 1 from rfl,
      show (if (false = true) then (1 : Nat) else 0) = 0 from rfl,
      show (if (true = true) then (1 : Nat) else 0) = 1 from rfl]
    omega
  | endCall i hp =>
    obtain ⟨hlt, hval⟩ := List.getElem?_eq_some.mp hp
    have hpos : 0 < a.tasks.countP isHolder :=
      List.countP_pos_iff.mpr ⟨a.tasks[i], List.getElem_mem hlt, by rw [hval]; rfl⟩
    refine ⟨?_, by simp⟩
    show a.sem + (a.tasks.set i .post).countP isHolder = bound
    rw [List.countP_set isHolder a.tasks i _ hlt, hval]
    unfold holders at ih1
    simp only [isHolder]
    simp only [show (if True then (1 : Nat) else 0) = 1 from rfl,
      show (if (false = true) then (1 : Nat) else 0) = 0 from rfl,
      show (if (true = true) then (1 : Nat) else 0) = 1 from rfl]
    omega
  | skipCall i hp =>
    obtain ⟨hlt, hval⟩ := List.getElem?_eq_some.mp hp
    have hpos : 0 < a.tasks.countP isHolder :=
      List.countP_pos_iff.mpr ⟨a.tasks[i], List.getElem_mem hlt, by rw [hval]; rfl⟩
    refine ⟨?_, by simp⟩
    show a.sem + (a.tasks.set i .post).countP isHolder = bound
    rw [List.countP_set isHolder a.tasks i _ hlt, hval]
    unfold holders at ih1
    simp only [isHolder]
    simp only [show (if True then (1 : Nat) else 0) = 1 from rfl,
      show (if (false = true) then (1 : Nat) else 0) = 0 from rfl,
      show (if (true = true) then (1 : Nat) else 0) = 1 from rfl]
    omega
  | release i hp =>
    obtain ⟨hlt, hval⟩ := List.getElem?_eq_some.mp hp
    have hpos : 0 < a.tasks.countP isHolder :=
      List.countP_pos_iff.mpr ⟨a.tasks[i], List.getElem_mem hlt, by rw [hval]; rfl⟩
    refine ⟨?_, by simp⟩
    show (a.sem + 1) + (a.tasks.set i .finished).countP isHolder = bound
    rw [List.countP_set isHolder a.tasks i _ hlt, hval]
    unfold holders at ih1
    simp only [isHolder]
    simp only [show (if True then (1 : Nat) else 0) = 1 from rfl,
      show (if (false = true) then (1 : Nat) else 0) = 0 from rfl,
      show (if (true = true) then (1 : Nat) else 0) = 1 from rfl]
    omega

/-- The semaphore invariant over every reachable dispatcher state. -/
theorem dispatch_invariant (bound n : Nat) (s : DispatchState)
    (h : DispatchReachable bound n s) :
    s.sem + holders s = bound ∧ s.tasks.length = n := by
  induction h with
  | refl =>
    constructor
    · simp [initState, holders, List.countP_replicate, isHolder]
    · simp [initState]
  | tail hr step ih =>
    obtain ⟨ih1, ih2⟩ := ih
    obtain ⟨h1, h2⟩ := dispatch_step_invariant bound _ _ step ih1
    exact ⟨h1, h2.trans ih2⟩

/-! ## C1 -/

/-- C1: for every concurrency bound `N ≥ 1` and every list of discovered
submission units, in every reachable dispatcher state at most `N` analysis
calls are in flight; and when exactly `N` calls are in flight, no pending
task can advance in any step — the (N+1)-th request stays blocked on the
admission gate until a slot is released. -/
theorem admission_gate_bound (units : List SubmissionUnit) (bound : Nat) (hb : 1 ≤ bound)
    (s : DispatchState) (h : DispatchReachable bound units.length s) :
    inflightCalls s ≤ bound ∧
    (inflightCalls s = bound → ∀ s2, DispatchStep s s2 →
      ∀ i : Nat, s.tasks[i]? = some TaskPhase.pending
        → s2.tasks[i]? = some TaskPhase.pending) := by
  obtain ⟨hinv, _⟩ := dispatch_invariant bound units.length s h
  have hle : inflightCalls s ≤ holders s := by
    unfold inflightCalls holders
    apply List.countP_mono_left
    intro x _ hx
    cases x <;> simp_all [isHolder]
  constructor
  · omega
  · intro hfull s2 step i hpend
    have hsem0 : s.sem = 0 := by omega
    cases step with
    | acquire j hp hs =>
      exact absurd hs (by omega)
    | startCall j hp =>
      have hij : j ≠ i := by
        intro he
        subst he
        have hcc := hp.symm.trans hpend
        injection hcc with hcc2
        exact absurd hcc2 (by simp)
      show (s.tasks.set j TaskPhase.calling)[i]? = some TaskPhase.pending
      rw [List.getElem?_set_ne hij]
      exact hpend
    | endCall j hp =>
      have hij : j ≠ i := by
        intro he
        subst he
        have hcc := hp.symm.trans hpend
        injection hcc with hcc2
        exact absurd hcc2 (by simp)
      show (s.tasks.set j TaskPhase.post)[i]? = some TaskPhase.pending
      rw [List.getElem?_set_ne hij]
      exact hpend
    | skipCall j hp =>
      have hij : j ≠ i := by
        intro he
        subst he
        have hcc := hp.symm.trans hpend
        injection hcc with hcc2
        exact absurd hcc2 (by simp)
      show (s.tasks.set j TaskPhase.post)[i]? = some TaskPhase.pending
      rw [List.getElem?_set_ne hij]
      exact hpend
    | release j hp =>
      have hij : j ≠ i := by
        intro he
        subst he
        have hcc := hp.symm.trans hpend
        injection hcc with hcc2
        exact absurd hcc2 (by simp)
      show (s.tasks.set j TaskPhase.finished)[i]? = some TaskPhase.pending
      rw [List.getElem?_set_ne hij]
      exact hpend

/-- C1 witness: bound 1 with two submitted tasks, after the first task
acquired the gate and started its call — one call in flight, within the
bound, and the second task cannot advance. -/
theorem admission_gate_bound_witness :
    inflightCalls exDispatchMid ≤ 1 ∧
    (inflightCalls exDispatchMid = 1 → ∀ s2, DispatchStep exDispatchMid s2 →
      ∀ i : Nat, exDispatchMid.tasks[i]? = some TaskPhase.pending
        → s2.tasks[i]? = some TaskPhase.pending) :=
  admission_gate_bound [exAlias, exAlias2] 1 (by decide) exDispatchMid
    (Relation.ReflTransGen.tail
      (Relation.ReflTransGen.tail Relation.ReflTransGen.refl
        (DispatchStep.acquire (initState 1 2) 0 (by rfl) (by decide)))
      (DispatchStep.startCall ⟨0, [TaskPhase.working, TaskPhase.pending]⟩ 0 (by rfl)))

end PreGrading
